import Mathlib

/-!
Shallow embedding of the computesdk/benchmarks core in Lean 4.

The embedding covers:
* `src/scoring.ts` — weighted timing score, success rate, composite score,
  ranking (`scoreMetric`, `computeTimingScore`, `computeSuccessRate`,
  `computeCompositeScores`, `sortByCompositeScore`);
* `src/benchmark.ts` — distribution statistics (`computeStats`) and the
  iteration orchestrator (`runIteration`, `runCheckedCommand`, `withTimeout`,
  `truncate`);
* the SSE adapter (`parseSseResult`): the chunked line decoder and the
  event-stream result assembler (`handleLine`, `emitEvent`).

JavaScript numbers are modelled as exact rationals, with an explicit `nan`
value (`JsNum`) where the code can produce `NaN` (arithmetic on `undefined`
record fields).  Strings handled by the stream layer are modelled as
`List Char`; the transport's byte→text decoding (`TextDecoder`, which is
multi-byte safe and concatenation-preserving) is external to the repository,
so chunks are modelled as decoded text fragments.
-/

namespace Benchmarks

/-- A JavaScript number that may be `NaN`.  All arithmetic propagates `nan`,
matching IEEE/JS semantics for the operations used by the scoring code. -/
inductive JsNum where
  | num (q : ℚ)
  | nan
  deriving DecidableEq, Repr

namespace JsNum

def jadd : JsNum → JsNum → JsNum
  | num a, num b => num (a + b)
  | _, _ => nan

def jmul : JsNum → JsNum → JsNum
  | num a, num b => num (a * b)
  | _, _ => nan

def jsub : JsNum → JsNum → JsNum
  | num a, num b => num (a - b)
  | _, _ => nan

instance : Add JsNum := ⟨jadd⟩
instance : Mul JsNum := ⟨jmul⟩
instance : Sub JsNum := ⟨jsub⟩

end JsNum

/-- `Math.round(x * 100) / 100` — round to 2 decimal places.  `Math.round`
rounds half-up (towards +∞); on `NaN` it returns `NaN`. -/
def jsRound2 : JsNum → JsNum
  | .num q => .num ((⌊q * 100 + 1 / 2⌋ : ℤ) / 100)
  | .nan => .nan

/-- `Stats` as produced by `computeStats` and consumed by the scoring code.
`p95`/`p99` are declared on the TypeScript interface but `computeStats`
never computes them, so they are optional; `none` models `undefined`. -/
structure Stats where
  min : ℚ
  max : ℚ
  median : ℚ
  avg : ℚ
  p95 : Option ℚ
  p99 : Option ℚ
  deriving DecidableEq, Repr

/-- `computeStats` from `src/benchmark.ts`: min/max/median/avg of the values
(zeroed for an empty batch).  JS `sort((a, b) => a - b)` on numbers is an
ascending numeric sort. -/
def computeStats (values : List ℚ) : Stats :=
  if values = [] then ⟨0, 0, 0, 0, none, none⟩
  else
    let sorted := values.mergeSort (· ≤ ·)
    let mid := sorted.length / 2
    let median :=
      if sorted.length % 2 = 0 then ((sorted.getD (mid - 1) 0) + sorted.getD mid 0) / 2
      else sorted.getD mid 0
    { min := sorted.headD 0
      max := sorted.getLastD 0
      median := median
      avg := values.sum / values.length
      p95 := none
      p99 := none }

/-- Weight configuration for composite scoring (`src/scoring.ts`). -/
structure ScoringWeights where
  median : ℚ
  p95 : ℚ
  p99 : ℚ
  min : ℚ
  max : ℚ
  deriving DecidableEq, Repr

def DEFAULT_WEIGHTS : ScoringWeights :=
  { median := 1 / 2, p95 := 1 / 5, p99 := 1 / 10, min := 1 / 20, max := 3 / 20 }

/-- Absolute ceiling in ms (`CEILING_MS`). -/
def CEILING_MS : ℚ := 10000

/-- `scoreMetric`: `Math.max(0, 100 * (1 - valueMs / CEILING_MS))`.  The
argument is a JS number that may be `undefined` (an absent optional field);
arithmetic on `undefined` yields `NaN`, and `Math.max(0, NaN) = NaN`. -/
def scoreMetric : Option ℚ → JsNum
  | some v => .num (max 0 (100 * (1 - v / CEILING_MS)))
  | none => .nan

/-- `computeTimingScore`: the weighted sum over
median/p95/p99/min/max of `scoreMetric`. -/
def computeTimingScore (stats : Stats) (weights : ScoringWeights) : JsNum :=
  JsNum.num weights.median * scoreMetric (some stats.median) +
    JsNum.num weights.p95 * scoreMetric stats.p95 +
    JsNum.num weights.p99 * scoreMetric stats.p99 +
    JsNum.num weights.min * scoreMetric (some stats.min) +
    JsNum.num weights.max * scoreMetric (some stats.max)

/-- One iteration's timing sample (`TimingResult`). -/
structure TimingResult where
  ttiMs : ℚ
  workloadMs : Option ℚ
  totalMs : Option ℚ
  error : Option (List Char)
  deriving DecidableEq, Repr

/-- Per-provider summary: stats per metric (optional metrics only present
when some successful iteration produced them). -/
structure Summary where
  ttiMs : Stats
  workloadMs : Option Stats
  totalMs : Option Stats
  deriving DecidableEq, Repr

/-- `BenchmarkResult`: a provider's iterations, stats, flags and the scores
filled in by the scoring step (`none` = not yet set / `undefined`). -/
structure BenchmarkResult where
  provider : List Char
  iterations : List TimingResult
  summary : Summary
  skipped : Bool
  skipReason : Option (List Char)
  successRate : Option ℚ
  compositeScore : Option JsNum
  deriving DecidableEq, Repr

/-- `computeSuccessRate`: fraction of iterations without `error`;
0 when skipped or empty. -/
def computeSuccessRate (result : BenchmarkResult) : ℚ :=
  if result.skipped ∨ result.iterations = [] then 0
  else ((result.iterations.filter (fun i => i.error = none)).length : ℚ) /
    (result.iterations.length : ℚ)

/-- Loop body of `computeCompositeScores` for one result: attach
`successRate`, and `compositeScore = round2(timingScore × successRate)`,
short-circuited to exactly 0 for skipped / zero-success-rate results. -/
def scoreResult (weights : ScoringWeights) (result : BenchmarkResult) : BenchmarkResult :=
  let successRate := computeSuccessRate result
  if result.skipped ∨ successRate = 0 then
    { result with successRate := some successRate, compositeScore := some (.num 0) }
  else
    { result with
      successRate := some successRate
      compositeScore :=
        some (jsRound2 (computeTimingScore result.summary.ttiMs weights * .num successRate)) }

/-- `computeCompositeScores` (modelled functionally: the TS code mutates each
element of the array in place). -/
def computeCompositeScores (results : List BenchmarkResult) (weights : ScoringWeights) :
    List BenchmarkResult :=
  results.map (scoreResult weights)

/-- `b.compositeScore ?? 0` — absent score coerces to 0 in the comparator. -/
def scoreOrZero (r : BenchmarkResult) : JsNum :=
  r.compositeScore.getD (.num 0)

/-- The comparator of `sortByCompositeScore`.  Per ECMAScript `SortCompare`,
a comparator result of `NaN` is treated as `+0` (equal). -/
def compareResults (a b : BenchmarkResult) : ℚ :=
  if a.skipped ∧ ¬ b.skipped then 1
  else if ¬ a.skipped ∧ b.skipped then -1
  else if a.skipped ∧ b.skipped then 0
  else
    match scoreOrZero b - scoreOrZero a with
    | .num q => q
    | .nan => 0

/-- Stable insertion w.r.t. a JS comparator: a new element is placed before
the first element it must strictly precede (`c x y < 0`), after any tie. -/
def insertByC {α : Type} (c : α → α → ℚ) (x : α) : List α → List α
  | [] => [x]
  | y :: ys => if c x y < 0 then x :: y :: ys else y :: insertByC c x ys

/-- A stable sort by a JS comparator (`Array.prototype.sort` is stable):
elements are inserted in original order, each after its ties. -/
def sortByC {α : Type} (c : α → α → ℚ) (l : List α) : List α :=
  l.foldl (fun acc x => insertByC c x acc) []

/-- `sortByCompositeScore`: sort a copy of the results by the comparator. -/
def sortByCompositeScore (results : List BenchmarkResult) : List BenchmarkResult :=
  sortByC compareResults results

/-! ### The SSE stream layer (`parseSseResult` in the provider adapter) -/

/-- JS whitespace (the characters relevant to this protocol; JS `trim` and
`trimStart` additionally strip exotic Unicode spaces). -/
def jsWs (c : Char) : Bool :=
  c = ' ' ∨ c = '\t' ∨ c = '\n' ∨ c = '\r' ∨ c = '\x0b' ∨ c = '\x0c'

/-- JS `String.prototype.trimStart`. -/
def jsTrimStart (s : List Char) : List Char :=
  s.dropWhile jsWs

/-- JS `String.prototype.trim`. -/
def jsTrim (s : List Char) : List Char :=
  ((s.dropWhile jsWs).reverse.dropWhile jsWs).reverse

/-- `dataLines.join('\n')`. -/
def joinNl : List (List Char) → List Char
  | [] => []
  | [l] => l
  | l :: ls => l ++ '\n' :: joinNl ls

/-- `parseInt(payload, 10)` followed by the `Number.isInteger` check:
skip leading whitespace, optional sign, then a non-empty decimal digit
run (parsing stops at the first non-digit); `none` models `NaN`. -/
def jsParseInt (s : List Char) : Option Int :=
  let t := s.dropWhile jsWs
  let signed : Bool × List Char :=
    match t with
    | '-' :: r => (true, r)
    | '+' :: r => (false, r)
    | _ => (false, t)
  let ds := signed.2.takeWhile Char.isDigit
  if ds = [] then none
  else
    let v : Int := ds.foldl (fun acc c => acc * 10 + (c.toNat - '0'.toNat : Int)) 0
    some (if signed.1 then -v else v)

/-- `pendingError ? pendingError + '\n' + payload : payload`.  The JS
conditional tests truthiness: both `null` and the empty string are falsy,
so an empty accumulated error is replaced by the new payload, not joined. -/
def joinPendingError (p : Option (List Char)) (payload : List Char) : List Char :=
  match p with
  | some (c :: cs) => (c :: cs) ++ '\n' :: payload
  | _ => payload

/-- Mutable state of `parseSseResult`'s line loop. -/
structure AsmState where
  stdout : List Char
  stderr : List Char
  exitCode : Option Int
  pendingError : Option (List Char)
  currentEvent : List Char
  dataLines : List (List Char)
  deriving DecidableEq, Repr

def initAsmState : AsmState :=
  ⟨[], [], none, none, "message".toList, []⟩

/-- `emitEvent`: flush the buffered record into the accumulators.  With no
buffered data lines only the event type resets; otherwise the payload is the
newline-join of the data lines and is folded according to the event type. -/
def emitEvent (s : AsmState) : AsmState :=
  if s.dataLines = [] then { s with currentEvent := "message".toList }
  else
    let payload := joinNl s.dataLines
    let s' :=
      if s.currentEvent = "stdout".toList then { s with stdout := s.stdout ++ payload }
      else if s.currentEvent = "stderr".toList then { s with stderr := s.stderr ++ payload }
      else if s.currentEvent = "exit".toList then
        match jsParseInt payload with
        | some n => { s with exitCode := some n }
        | none => s
      else if s.currentEvent = "error".toList then
        { s with pendingError := some (joinPendingError s.pendingError payload) }
      else s
    { s' with currentEvent := "message".toList, dataLines := [] }

/-- `handleLine`: strip one trailing `\r`, then dispatch on the line form
(blank / comment / `event:` / `data:` / ignored). -/
def handleLine (s : AsmState) (rawLine : List Char) : AsmState :=
  let line := if rawLine.getLast? = some '\r' then rawLine.dropLast else rawLine
  if line = [] then emitEvent s
  else if line.take 1 = [':'] then s
  else if line.take 6 = "event:".toList then
    { s with currentEvent := jsTrim (line.drop 6) }
  else if line.take 5 = "data:".toList then
    { s with dataLines := s.dataLines ++ [jsTrimStart (line.drop 5)] }
  else s

def runLines (s : AsmState) (lines : List (List Char)) : AsmState :=
  lines.foldl handleLine s

/-- `CommandResult` assembled from the stream. -/
structure CommandResult where
  stdout : List Char
  stderr : List Char
  exitCode : Int
  deriving DecidableEq, Repr

/-- The two stream-protocol failures of `parseSseResult`. -/
inductive ProtoError where
  | streamError (payload : List Char)
  | noExit
  deriving DecidableEq, Repr

/-- The result contract at the end of `parseSseResult`: flush the last
unterminated record, then fail on an accumulated error, then on a missing
exit code, else return the `CommandResult`.  `if (pendingError) throw` tests
truthiness: an accumulated error that is the empty string is falsy and does
not fail assembly. -/
def assembleLines (lines : List (List Char)) : Except ProtoError CommandResult :=
  let s := emitEvent (runLines initAsmState lines)
  match s.pendingError with
  | some (c :: cs) => .error (.streamError (c :: cs))
  | _ =>
    match s.exitCode with
    | some c => .ok ⟨s.stdout, s.stderr, c⟩
    | none => .error .noExit

/-- Split a text into the complete lines before each `\n` and the trailing
partial line (the carry-over buffer). -/
def extractLines : List Char → List (List Char) × List Char
  | [] => ([], [])
  | c :: cs =>
    let p := extractLines cs
    if c = '\n' then ([] :: p.1, p.2)
    else
      match p.1 with
      | [] => ([], c :: p.2)
      | l :: ls => ((c :: l) :: ls, p.2)

/-- One iteration of the read loop: append the decoded chunk to the buffer
and extract every complete line. -/
def feedChunk (st : List (List Char) × List Char) (chunk : List Char) :
    List (List Char) × List Char :=
  let p := extractLines (st.2 ++ chunk)
  (st.1 ++ p.1, p.2)

/-- The stream decoder: fold the chunks through the buffer, then emit the
final partial line (if any) as a last line. -/
def decodeAll (chunks : List (List Char)) : List (List Char) :=
  let st := chunks.foldl feedChunk ([], [])
  if st.2 = [] then st.1 else st.1 ++ [st.2]

/-- `parseSseResult`: decode the chunked stream into lines and assemble the
command result. -/
def parseSseResult (chunks : List (List Char)) : Except ProtoError CommandResult :=
  assembleLines (decodeAll chunks)

/-! #### Event-level view of the assembler

The line machine is refactored (provably equivalently) into a phase that
reconstructs `ProtocolEvent`s — `(type, payload)` pairs — and a fold applying
each event to the output accumulators.  This is the vocabulary the spec's
claims are phrased in ("emitted `error` event", …). -/

/-- The record-building part of the line machine: pending event type and
buffered data lines. -/
structure RecState where
  current : List Char
  dataLines : List (List Char)
  deriving DecidableEq, Repr

def initRecState : RecState :=
  ⟨"message".toList, []⟩

/-- Events emitted when the current record is flushed. -/
def flushEvents (rs : RecState) : List (List Char × List Char) :=
  if rs.dataLines = [] then [] else [(rs.current, joinNl rs.dataLines)]

/-- The record state after a flush: default event type, no buffered data. -/
def flushRec (_ : RecState) : RecState :=
  initRecState

/-- One line of the record machine: the new record state and the events
emitted by this line (none, or one on a blank line). -/
def lineEvents (rs : RecState) (rawLine : List Char) :
    RecState × List (List Char × List Char) :=
  let line := if rawLine.getLast? = some '\r' then rawLine.dropLast else rawLine
  if line = [] then (flushRec rs, flushEvents rs)
  else if line.take 1 = [':'] then (rs, [])
  else if line.take 6 = "event:".toList then
    (⟨jsTrim (line.drop 6), rs.dataLines⟩, [])
  else if line.take 5 = "data:".toList then
    (⟨rs.current, rs.dataLines ++ [jsTrimStart (line.drop 5)]⟩, [])
  else (rs, [])

/-- Run the record machine over a line sequence, collecting emitted events. -/
def runRec (rs : RecState) : List (List Char) → RecState × List (List Char × List Char)
  | [] => (rs, [])
  | l :: ls =>
    let p := lineEvents rs l
    let q := runRec p.1 ls
    (q.1, p.2 ++ q.2)

/-- All events emitted by a decoded line stream, including the final flush
of an unterminated record. -/
def eventsOf (lines : List (List Char)) : List (List Char × List Char) :=
  let p := runRec initRecState lines
  p.2 ++ flushEvents p.1

/-- Output accumulators of the assembler. -/
structure OutAcc where
  stdout : List Char
  stderr : List Char
  exitCode : Option Int
  pendingError : Option (List Char)
  deriving DecidableEq, Repr

def initOutAcc : OutAcc := ⟨[], [], none, none⟩

/-- Fold one emitted event into the accumulators (the `switch` of
`emitEvent`). -/
def applyEvent (o : OutAcc) (ev : List Char × List Char) : OutAcc :=
  if ev.1 = "stdout".toList then { o with stdout := o.stdout ++ ev.2 }
  else if ev.1 = "stderr".toList then { o with stderr := o.stderr ++ ev.2 }
  else if ev.1 = "exit".toList then
    match jsParseInt ev.2 with
    | some n => { o with exitCode := some n }
    | none => o
  else if ev.1 = "error".toList then
    { o with pendingError := some (joinPendingError o.pendingError ev.2) }
  else o

def foldEvents (evs : List (List Char × List Char)) : OutAcc :=
  evs.foldl applyEvent initOutAcc

/-- Payloads of the emitted `error` events, in order. -/
def errorPayloads (evs : List (List Char × List Char)) : List (List Char) :=
  evs.filterMap fun ev => if ev.1 = "error".toList then some ev.2 else none

/-- Exit codes recorded by the emitted `exit` events whose payload parses. -/
def validExits (evs : List (List Char × List Char)) : List Int :=
  evs.filterMap fun ev => if ev.1 = "exit".toList then jsParseInt ev.2 else none

/-- Payloads of the emitted `stdout` events, in order. -/
def stdoutPayloads (evs : List (List Char × List Char)) : List (List Char) :=
  evs.filterMap fun ev => if ev.1 = "stdout".toList then some ev.2 else none

/-- Payloads of the emitted `stderr` events, in order. -/
def stderrPayloads (evs : List (List Char × List Char)) : List (List Char) :=
  evs.filterMap fun ev => if ev.1 = "stderr".toList then some ev.2 else none

/-! ### The iteration orchestrator (`src/benchmark.ts`) -/

/-- `truncate(value, maxLength)`: keep the value when short enough, else the
first `maxLength - 3` characters followed by an ellipsis. -/
def truncate (value : List Char) (maxLength : Nat) : List Char :=
  if value.length ≤ maxLength then value
  else value.take (maxLength - 3) ++ "...".toList

/-- Decimal rendering of a JS integer (matches JS number stringification for
integral values). -/
def intToChars (i : Int) : List Char :=
  (toString i).toList

/-- `runCheckedCommand` applied to a completed command result: succeed on
exit code 0, otherwise throw the failure message built from the label, the
exit code and the truncated diagnostic (trimmed stderr, else trimmed
stdout). -/
def runCheckedCommand (r : CommandResult) (failureLabel : List Char) :
    Except (List Char) Unit :=
  if r.exitCode ≠ 0 then
    let stderrT := jsTrim r.stderr
    let stdoutT := jsTrim r.stdout
    let detail := if stderrT ≠ [] then stderrT else stdoutT
    if detail ≠ [] then
      .error (failureLabel ++ " (exit ".toList ++ intToChars r.exitCode ++ "): ".toList ++
        truncate detail 220)
    else
      .error (failureLabel ++ " (exit ".toList ++ intToChars r.exitCode ++ ")".toList)
  else .ok ()

/-- Outcome of awaiting one asynchronous operation, as seen by the
`Promise.race` in `withTimeout`: it settles with a value, settles with a
rejection, or has not settled when the timer fires. -/
inductive OpRes (α : Type) where
  | ok (a : α)
  | fail (msg : List Char)
  | hung
  deriving DecidableEq, Repr

/-- `withTimeout(promise, ms, message)`: the operation's own settlement wins
if it settles first; otherwise the race rejects with the given message. -/
def withTimeout {α : Type} (_ms : Nat) (op : OpRes α) (message : List Char) :
    Except (List Char) α :=
  match op with
  | .ok a => .ok a
  | .fail m => .error m
  | .hung => .error message

/-- `sandbox.runCommand` followed by the exit-code check of
`runCheckedCommand` (transport failure, hang, or checked completion). -/
def checkedOp (op : OpRes CommandResult) (failureLabel : List Char) : OpRes Unit :=
  match op with
  | .hung => .hung
  | .fail m => .fail m
  | .ok r =>
    match runCheckedCommand r failureLabel with
    | .ok _ => .ok ()
    | .error m => .fail m

/-- The workload configuration fields the orchestrator reads.  The CLI layer
never stores empty-string commands, so absent = `none`. -/
structure WorkloadConfig where
  setupCommand : Option (List Char)
  command : Option (List Char)
  timeoutMs : Option Nat
  deriving DecidableEq, Repr

/-- The environment of one iteration: how each awaited remote operation
settles, and the wall-clock durations the `performance.now()` differences
would measure. -/
structure IterEnv where
  createRes : OpRes Unit
  smokeRes : OpRes CommandResult
  setupRes : OpRes CommandResult
  workloadRes : OpRes CommandResult
  destroyRes : OpRes Unit
  ttiClock : ℚ
  workloadClock : ℚ
  totalClock : ℚ
  deriving DecidableEq, Repr

instance {ε α : Type} [DecidableEq ε] [DecidableEq α] : DecidableEq (Except ε α)
  | .error a, .error b =>
    if h : a = b then .isTrue (by rw [h]) else .isFalse (by intro hh; cases hh; exact h rfl)
  | .error _, .ok _ => .isFalse (by intro h; cases h)
  | .ok _, .error _ => .isFalse (by intro h; cases h)
  | .ok a, .ok b =>
    if h : a = b then .isTrue (by rw [h]) else .isFalse (by intro hh; cases hh; exact h rfl)

/-- What one call of `runIteration` did: its primary outcome (the value
returned or the error thrown to `runBenchmark`'s catch), how many times
`sandbox.destroy()` was invoked, and the outcome of the bounded teardown
race (discarded by the orchestrator). -/
structure IterOutcome where
  primary : Except (List Char) TimingResult
  destroyCalls : Nat
  teardown : Option (Except (List Char) Unit)
  deriving DecidableEq, Repr

def destroyTimeoutMs : Nat := 15000

/-- `workload?.timeoutMs ?? 300_000`. -/
def workloadTimeoutMs (workload : Option WorkloadConfig) : Nat :=
  (workload.bind (·.timeoutMs)).getD 300000

/-- The optional setup command step: the bounded checked setup command when
one is configured, a no-op otherwise. -/
def setupStep (env : IterEnv) (workload : Option WorkloadConfig) :
    Except (List Char) Unit :=
  match workload.bind (·.setupCommand) with
  | some _ =>
    withTimeout (workloadTimeoutMs workload)
      (checkedOp env.setupRes "Workload setup failed".toList)
      "Workload setup timed out".toList
  | none => .ok ()

/-- The optional workload command step. -/
def commandStep (env : IterEnv) (workload : Option WorkloadConfig) :
    Except (List Char) Unit :=
  match workload.bind (·.command) with
  | some _ =>
    withTimeout (workloadTimeoutMs workload)
      (checkedOp env.workloadRes "Workload command failed".toList)
      "Workload command timed out".toList
  | none => .ok ()

/-- The body of `runIteration`'s `try` block after a successful creation:
smoke command (30 s), early return of the bare `{ ttiMs }` sample when no
workload phase is configured, then setup and workload command. -/
def iterationBody (env : IterEnv) (workload : Option WorkloadConfig) :
    Except (List Char) TimingResult :=
  match withTimeout 30000 (checkedOp env.smokeRes "First command execution failed".toList)
      "First command execution timed out".toList with
  | .error e => .error e
  | .ok _ =>
    if (workload.bind (·.setupCommand)) = none ∧ (workload.bind (·.command)) = none then
      .ok ⟨env.ttiClock, none, none, none⟩
    else
      match setupStep env workload with
      | .error e => .error e
      | .ok _ =>
        match commandStep env workload with
        | .error e => .error e
        | .ok _ => .ok ⟨env.ttiClock, some env.workloadClock, some env.totalClock, none⟩

/-- `runIteration`: create (bounded by the top-level timeout), then the body
above, with the `finally` block destroying the sandbox — raced against a
15 s timer, result swallowed — whenever creation succeeded. -/
def runIteration (env : IterEnv) (timeout : Nat) (workload : Option WorkloadConfig) :
    IterOutcome :=
  match withTimeout timeout env.createRes "Sandbox creation timed out".toList with
  | .error e => ⟨.error e, 0, none⟩
  | .ok _ =>
    ⟨iterationBody env workload, 1,
      some (withTimeout destroyTimeoutMs env.destroyRes "Destroy timeout".toList)⟩

/-- The sample `runBenchmark` records for one iteration: the returned timing
result, or `{ ttiMs: 0, error }` when `runIteration` threw. -/
def iterationSample (out : IterOutcome) : TimingResult :=
  match out.primary with
  | .ok t => t
  | .error e => ⟨0, none, none, some e⟩

/-! ## Basic lemmas about `JsNum` -/

theorem JsNum.add_nan (x : JsNum) : x + JsNum.nan = JsNum.nan := by
  cases x <;> rfl

theorem JsNum.nan_add (x : JsNum) : JsNum.nan + x = JsNum.nan := by
  cases x <;> rfl

theorem JsNum.mul_nan (x : JsNum) : x * JsNum.nan = JsNum.nan := by
  cases x <;> rfl

theorem computeStats_p95 (values : List ℚ) : (computeStats values).p95 = none := by
  by_cases h : values = [] <;> simp [computeStats, h]

/-! ## C1 — the composite timing score -/

/-- C1: the claim states that for a non-skipped result with at least one
successful iteration the composite timing score is the finite weighted sum
over median/p95/p99/min/max, with p95/p99 the 95th/99th percentile rank
values of the sorted successful samples.  The code cannot produce this:
`computeStats` (the only producer of `Stats`) never computes `p95`/`p99`, so
`computeTimingScore` multiplies weights with `scoreMetric(undefined) = NaN`
and the whole weighted sum is `NaN` for every computed `Stats`, whatever the
samples and weights. -/
theorem computeTimingScore_computeStats_isNan (values : List ℚ) (weights : ScoringWeights) :
    computeTimingScore (computeStats values) weights = JsNum.nan := by
  have h95 : (computeStats values).p95 = none := computeStats_p95 values
  unfold computeTimingScore
  rw [h95]
  show _ + JsNum.num weights.p95 * scoreMetric none + _ + _ + _ = _
  rw [show scoreMetric none = JsNum.nan from rfl, JsNum.mul_nan, JsNum.add_nan,
    JsNum.nan_add, JsNum.nan_add, JsNum.nan_add]

/-! ## C8 — the final composite score -/

/-- C8: the final composite score is `round2(timingScore × successRate)`,
and a skipped or zero-success-rate result gets the literal score 0, the
weighted computation being bypassed; `round2(80 × 0.5) = 40`. -/
theorem compositeScore_spec (weights : ScoringWeights) (r : BenchmarkResult) :
    computeCompositeScores [r] weights = [scoreResult weights r] ∧
    (scoreResult weights r).successRate = some (computeSuccessRate r) ∧
    (scoreResult weights r).compositeScore =
      some (if r.skipped ∨ computeSuccessRate r = 0 then JsNum.num 0
        else jsRound2 (computeTimingScore r.summary.ttiMs weights *
          JsNum.num (computeSuccessRate r))) ∧
    jsRound2 (JsNum.num 80 * JsNum.num (1 / 2)) = JsNum.num 40 := by
  refine ⟨rfl, ?_, ?_, ?_⟩
  · by_cases h : r.skipped = true ∨ computeSuccessRate r = 0 <;> simp [scoreResult, h]
  · by_cases h : r.skipped = true ∨ computeSuccessRate r = 0 <;> simp [scoreResult, h]
  · show jsRound2 (JsNum.num (80 * (1 / 2))) = JsNum.num 40
    norm_num [jsRound2]

/-! ## C5 — `data:` line handling -/

/-- C5 (counterexample): the claim says a `data:` line contributes the
remainder with *at most one* leading space stripped, so `data:  x` (two
spaces) would contribute `\x20x`.  The code calls `trimStart()` and strips
*all* leading whitespace: the buffered string is `x`. -/
theorem handleLine_data_two_spaces :
    (handleLine initAsmState "data:  x".toList).dataLines = ["x".toList] ∧
    ("x".toList : List Char) ≠ " x".toList := by
  constructor
  · rfl
  · decide

/-- C5 (amended): a `data:` line contributes the remainder after `data:`
with **all** leading whitespace stripped (`data:  x` contributes `x`), and
the data lines buffered before a blank line are joined with a single `\n`
in the emitted payload. -/
theorem handleLine_data_spec :
    (∀ (s : AsmState) (rest : List Char), rest.getLast? ≠ some '\r' →
      handleLine s ("data:".toList ++ rest) =
        { s with dataLines := s.dataLines ++ [jsTrimStart rest] }) ∧
    (∀ st : AsmState, st.currentEvent = "stdout".toList → st.dataLines ≠ [] →
      (emitEvent st).stdout = st.stdout ++ joinNl st.dataLines) := by
  constructor
  · intro s rest h
    match rest with
    | [] => rfl
    | r :: rs =>
      have hlast : ("data:".toList ++ r :: rs).getLast? = (r :: rs).getLast? :=
        List.getLast?_append_of_ne_nil _ (by simp)
      unfold handleLine
      rw [hlast, if_neg h]
      simp [jsTrimStart]
  · intro st h1 h2
    simp [emitEvent, h1, h2]

/-- C5 witness: the amended statement at the claim's own example input. -/
theorem handleLine_data_spec_witness :
    handleLine initAsmState ("data:".toList ++ "  x".toList) =
      { initAsmState with dataLines := initAsmState.dataLines ++ [jsTrimStart "  x".toList] } ∧
    (emitEvent ⟨[], [], none, none, "stdout".toList, ["a".toList, "b".toList]⟩).stdout =
      [] ++ joinNl ["a".toList, "b".toList] :=
  ⟨handleLine_data_spec.1 initAsmState "  x".toList (by decide),
    handleLine_data_spec.2 ⟨[], [], none, none, "stdout".toList, ["a".toList, "b".toList]⟩
      rfl (by decide)⟩

/-! ## C6 — checked command failure messages -/

/-- The diagnostic chosen by `runCheckedCommand`: trimmed stderr, or trimmed
stdout when the former is empty. -/
def commandDetail (r : CommandResult) : List Char :=
  if jsTrim r.stderr ≠ [] then jsTrim r.stderr else jsTrim r.stdout

def c6Result : CommandResult :=
  ⟨[], List.replicate 220 'a' ++ ['b'], 1⟩

def c6Message : List Char :=
  "Cmd failed (exit 1): ".toList ++ List.replicate 217 'a' ++ "...".toList

set_option maxRecDepth 20000 in
/-- C6 (counterexample): the claim says the failure message contains a
truncated *tail* of stderr.  For a 221-character stderr ending in `b`, the
tail of at most 220 characters contains that final `b`, but the message the
code builds keeps the *head* (first 217 characters plus an ellipsis) and
contains no `b` at all. -/
theorem runCheckedCommand_not_tail :
    runCheckedCommand c6Result "Cmd failed".toList = .error c6Message ∧
    'b' ∈ c6Result.stderr.drop (c6Result.stderr.length - 220) ∧
    'b' ∉ c6Message := by
  refine ⟨by decide, by decide, by decide⟩

/-- C6 (amended): a non-zero exit code always fails the checked step; the
message is the label, the exit code, and — when the trimmed diagnostic is
non-empty — a truncation of at most 220 characters that keeps the *head* of
the diagnostic (first 217 characters plus `...` when longer than 220);
when both trimmed outputs are empty the message is just label and exit
code. -/
theorem runCheckedCommand_spec (r : CommandResult) (label : List Char)
    (h : r.exitCode ≠ 0) :
    runCheckedCommand r label = .error
      (label ++ " (exit ".toList ++ intToChars r.exitCode ++
        (if commandDetail r = [] then ")".toList
          else "): ".toList ++ truncate (commandDetail r) 220)) ∧
    (truncate (commandDetail r) 220).length ≤ 220 ∧
    (truncate (commandDetail r) 220).take 217 = (commandDetail r).take 217 := by
  refine ⟨?_, ?_, ?_⟩
  · unfold runCheckedCommand commandDetail
    rw [if_pos h]
    by_cases hd : (if jsTrim r.stderr ≠ [] then jsTrim r.stderr else jsTrim r.stdout) = []
    · rw [if_neg (by simpa using hd), if_pos hd]
    · rw [if_pos hd, if_neg hd]
      simp [List.append_assoc]
  · unfold truncate
    split
    · omega
    · rename_i hlen
      have : (commandDetail r).length > 220 := by omega
      simp [List.length_take]
  · unfold truncate
    split
    · rfl
    · rename_i hlen
      have h217 : 217 ≤ ((commandDetail r).take 217).length := by
        simp [List.length_take]
        omega
      rw [List.take_append_of_le_length h217, List.take_take]
      norm_num

/-! ## C4 — chunk-split invariance of the decoder -/

theorem extractLines_cons (c : Char) (cs : List Char) :
    extractLines (c :: cs) =
      if c = '\n' then ([] :: (extractLines cs).1, (extractLines cs).2)
      else
        match (extractLines cs).1 with
        | [] => ([], c :: (extractLines cs).2)
        | l :: ls => ((c :: l) :: ls, (extractLines cs).2) :=
  rfl

theorem extractLines_snd_no_newline (s : List Char) : '\n' ∉ (extractLines s).2 := by
  induction s with
  | nil => simp [extractLines]
  | cons c cs ih =>
    rw [extractLines_cons]
    by_cases hc : c = '\n'
    · simpa [hc] using ih
    · cases h : (extractLines cs).1 with
      | nil =>
        simp only [hc, if_false, h]
        intro hmem
        rcases List.mem_cons.mp hmem with h' | h'
        · exact hc h'.symm
        · exact ih h'
      | cons l ls => simpa [hc, h] using ih

theorem extractLines_of_no_newline (s : List Char) (h : '\n' ∉ s) :
    extractLines s = ([], s) := by
  induction s with
  | nil => rfl
  | cons c cs ih =>
    have hc : ¬ c = '\n' := fun hn => h (by simp [hn])
    have hcs : '\n' ∉ cs := fun hn => h (by simp [hn])
    rw [extractLines_cons, ih hcs]
    simp [hc]

theorem extractLines_append (x y : List Char) :
    extractLines (x ++ y) =
      ((extractLines x).1 ++ (extractLines ((extractLines x).2 ++ y)).1,
        (extractLines ((extractLines x).2 ++ y)).2) := by
  induction x with
  | nil => simp [extractLines]
  | cons c cs ih =>
    rw [List.cons_append, extractLines_cons c (cs ++ y), ih, extractLines_cons c cs]
    by_cases hc : c = '\n'
    · simp [hc]
    · cases h1 : (extractLines cs).1 with
      | nil =>
        simp only [hc, if_false, h1, List.nil_append]
        rw [List.cons_append, extractLines_cons c ((extractLines cs).2 ++ y)]
        simp [hc]
      | cons l ls =>
        simp [hc, h1]

theorem foldl_feedChunk (chunks : List (List Char)) (ls : List (List Char))
    (buf : List Char) (h : '\n' ∉ buf) :
    chunks.foldl feedChunk (ls, buf) =
      (ls ++ (extractLines (buf ++ chunks.flatten)).1,
        (extractLines (buf ++ chunks.flatten)).2) := by
  induction chunks generalizing ls buf with
  | nil =>
    simp only [List.foldl_nil, List.flatten_nil, List.append_nil]
    rw [extractLines_of_no_newline buf h]
    simp
  | cons a rest ih =>
    simp only [List.foldl_cons, List.flatten_cons]
    rw [show feedChunk (ls, buf) a =
      (ls ++ (extractLines (buf ++ a)).1, (extractLines (buf ++ a)).2) from rfl]
    rw [ih _ _ (extractLines_snd_no_newline (buf ++ a))]
    rw [show buf ++ (a ++ rest.flatten) = buf ++ a ++ rest.flatten from
      (List.append_assoc buf a rest.flatten).symm]
    rw [extractLines_append (buf ++ a) rest.flatten]
    simp [List.append_assoc]

/-- C4: feeding any chunking of a byte stream through the decoder's
carry-over buffer yields exactly the same decoded line sequence — and hence
the same assembled result (in particular the same exit code) — as feeding
the concatenated stream as a single chunk.  Splitting into two chunks at
any offset is the special case `chunks = [s.take i, s.drop i]`. -/
theorem decode_chunking_invariant (chunks : List (List Char)) :
    decodeAll chunks = decodeAll [chunks.flatten] ∧
    parseSseResult chunks = parseSseResult [chunks.flatten] := by
  have hdec : decodeAll chunks = decodeAll [chunks.flatten] := by
    unfold decodeAll
    rw [foldl_feedChunk chunks [] [] (by simp),
      foldl_feedChunk [chunks.flatten] [] [] (by simp)]
    simp
  exact ⟨hdec, by unfold parseSseResult; rw [hdec]⟩

/-! ## Simulation: the line machine is the event machine plus the fold -/

/-- Combine output accumulators and a record state into the line machine's
state. -/
def combine (o : OutAcc) (rs : RecState) : AsmState :=
  ⟨o.stdout, o.stderr, o.exitCode, o.pendingError, rs.current, rs.dataLines⟩

theorem emitEvent_combine (o : OutAcc) (rs : RecState) :
    emitEvent (combine o rs) =
      combine ((flushEvents rs).foldl applyEvent o) (flushRec rs) := by
  obtain ⟨so, se, ec, pe⟩ := o
  obtain ⟨cur, dls⟩ := rs
  by_cases hd : dls = []
  · simp [emitEvent, flushEvents, flushRec, combine, initRecState, hd]
  · simp only [emitEvent, flushEvents, flushRec, combine, initRecState, hd, if_false,
      if_neg hd, List.foldl_cons, List.foldl_nil, applyEvent]
    split_ifs <;>
      first
        | rfl
        | (cases hp : jsParseInt (joinNl dls) <;> simp [hp])

theorem handleLine_combine (o : OutAcc) (rs : RecState) (rawLine : List Char) :
    handleLine (combine o rs) rawLine =
      combine ((lineEvents rs rawLine).2.foldl applyEvent o) (lineEvents rs rawLine).1 := by
  simp only [handleLine, lineEvents]
  split_ifs <;>
    first
      | exact emitEvent_combine o rs
      | rfl

theorem runLines_combine (lines : List (List Char)) (o : OutAcc) (rs : RecState) :
    runLines (combine o rs) lines =
      combine ((runRec rs lines).2.foldl applyEvent o) (runRec rs lines).1 := by
  induction lines generalizing o rs with
  | nil => rfl
  | cons l ls ih =>
    show runLines (handleLine (combine o rs) l) ls = _
    rw [handleLine_combine]
    rw [ih]
    simp only [runRec, List.foldl_append]

/-- The result contract applied to final output accumulators (the same
truthiness test as `assembleLines`). -/
def finalizeOut (o : OutAcc) : Except ProtoError CommandResult :=
  match o.pendingError with
  | some (c :: cs) => .error (.streamError (c :: cs))
  | _ =>
    match o.exitCode with
    | some c => .ok ⟨o.stdout, o.stderr, c⟩
    | none => .error .noExit

/-- The end-of-stream state of `parseSseResult`'s fold, expressed through
the emitted events. -/
theorem assembleLines_eq_events (lines : List (List Char)) :
    assembleLines lines = finalizeOut (foldEvents (eventsOf lines)) := by
  have hinit : initAsmState = combine initOutAcc initRecState := rfl
  unfold assembleLines
  rw [hinit, runLines_combine, emitEvent_combine]
  unfold foldEvents eventsOf
  rw [List.foldl_append]
  rfl

/-- `joinErrOpt p errs`: the pending error after folding the error payloads
`errs` onto an already-pending `p`. -/
def joinErrOpt (p : Option (List Char)) : List (List Char) → Option (List Char)
  | [] => p
  | e :: es => joinErrOpt (some (joinPendingError p e)) es

theorem joinErrOpt_some (es : List (List Char)) (p : List Char) (hp : p ≠ []) :
    joinErrOpt (some p) es = some (joinNl (p :: es)) := by
  induction es generalizing p with
  | nil => rfl
  | cons e es ih =>
    obtain ⟨c, cs, rfl⟩ : ∃ c cs, p = c :: cs := by
      cases p with
      | nil => exact absurd rfl hp
      | cons c cs => exact ⟨c, cs, rfl⟩
    show joinErrOpt (some ((c :: cs) ++ '\n' :: e)) es = _
    rw [ih _ (by simp)]
    congr 1
    cases es with
    | nil => rfl
    | cons f fs => simp [joinNl, List.append_assoc]

theorem joinErrOpt_some_nil (es : List (List Char)) :
    joinErrOpt (some []) es = some (joinNl (es.dropWhile (fun e => e.isEmpty))) := by
  induction es with
  | nil => rfl
  | cons e es ih =>
    cases e with
    | nil =>
      show joinErrOpt (some (joinPendingError (some []) [])) es = _
      rw [show joinPendingError (some []) [] = [] from rfl, ih]
      congr 1 <;> simp [List.dropWhile]
    | cons c cs =>
      show joinErrOpt (some (joinPendingError (some []) (c :: cs))) es = _
      rw [show joinPendingError (some []) (c :: cs) = c :: cs from rfl,
        joinErrOpt_some _ _ (by simp)]
      congr 1 <;> simp [List.dropWhile]

/-- The accumulated error text of the truthiness-testing fold: empty
payloads seen while no error text has accumulated are replaced, so the
result is the newline-join from the first non-empty payload on. -/
theorem joinErrOpt_none (es : List (List Char)) (h : es ≠ []) :
    joinErrOpt none es = some (joinNl (es.dropWhile (fun e => e.isEmpty))) := by
  cases es with
  | nil => exact absurd rfl h
  | cons e es =>
    cases e with
    | nil =>
      show joinErrOpt (some (joinPendingError none [])) es = _
      rw [show joinPendingError none [] = [] from rfl, joinErrOpt_some_nil]
      congr 1 <;> simp [List.dropWhile]
    | cons c cs =>
      show joinErrOpt (some (joinPendingError none (c :: cs))) es = _
      rw [show joinPendingError none (c :: cs) = c :: cs from rfl,
        joinErrOpt_some _ _ (by simp)]
      congr 1 <;> simp [List.dropWhile]

theorem foldl_applyEvent_pendingError (evs : List (List Char × List Char)) (o : OutAcc) :
    (evs.foldl applyEvent o).pendingError =
      joinErrOpt o.pendingError (errorPayloads evs) := by
  induction evs generalizing o with
  | nil => rfl
  | cons ev rest ih =>
    obtain ⟨t, p⟩ := ev
    obtain ⟨so, se, ec, pe⟩ := o
    rw [List.foldl_cons, ih]
    simp only [applyEvent, errorPayloads, List.filterMap_cons]
    split_ifs <;> (try cases hp : jsParseInt p) <;>
      simp_all [joinErrOpt, List.foldl_cons]

theorem foldl_applyEvent_exitCode (evs : List (List Char × List Char)) (o : OutAcc) :
    (evs.foldl applyEvent o).exitCode =
      (validExits evs).foldl (fun _ v => some v) o.exitCode := by
  induction evs generalizing o with
  | nil => rfl
  | cons ev rest ih =>
    obtain ⟨t, p⟩ := ev
    obtain ⟨so, se, ec, pe⟩ := o
    rw [List.foldl_cons, ih]
    simp only [applyEvent, validExits, List.filterMap_cons]
    split_ifs <;> (try cases hp : jsParseInt p) <;>
      simp_all [joinErrOpt, List.foldl_cons]

theorem foldl_applyEvent_stdout (evs : List (List Char × List Char)) (o : OutAcc) :
    (evs.foldl applyEvent o).stdout = o.stdout ++ (stdoutPayloads evs).flatten := by
  induction evs generalizing o with
  | nil => simp [stdoutPayloads]
  | cons ev rest ih =>
    obtain ⟨t, p⟩ := ev
    obtain ⟨so, se, ec, pe⟩ := o
    rw [List.foldl_cons, ih]
    simp only [applyEvent, stdoutPayloads, List.filterMap_cons]
    split_ifs <;> (try cases hp : jsParseInt p) <;>
      simp_all [List.append_assoc]

theorem foldl_applyEvent_stderr (evs : List (List Char × List Char)) (o : OutAcc) :
    (evs.foldl applyEvent o).stderr = o.stderr ++ (stderrPayloads evs).flatten := by
  induction evs generalizing o with
  | nil => simp [stderrPayloads]
  | cons ev rest ih =>
    obtain ⟨t, p⟩ := ev
    obtain ⟨so, se, ec, pe⟩ := o
    rw [List.foldl_cons, ih]
    simp only [applyEvent, stderrPayloads, List.filterMap_cons]
    split_ifs <;> (try cases hp : jsParseInt p) <;>
      simp_all [List.append_assoc]

theorem foldl_lastWins (l : List Int) (o : Option Int) :
    l.foldl (fun _ v => some v) o = if l = [] then o else l.getLast? := by
  induction l generalizing o with
  | nil => rfl
  | cons x xs ih =>
    rw [List.foldl_cons, ih]
    cases xs with
    | nil => simp
    | cons y ys => simp [List.getLast?_cons_cons]

/-! ## C2 — error events versus exit events -/

theorem dropWhile_head_not {α : Type} (p : α → Bool) (l : List α) (f : α) (fs : List α)
    (h : l.dropWhile p = f :: fs) : p f = false := by
  induction l with
  | nil => simp [List.dropWhile] at h
  | cons x xs ih =>
    rw [List.dropWhile_cons] at h
    by_cases hx : p x = true
    · rw [if_pos hx] at h
      exact ih h
    · rw [if_neg hx] at h
      cases h
      exact Bool.not_eq_true _ |>.mp hx

theorem joinNl_cons_cons (c : Char) (cs : List Char) (fs : List (List Char)) :
    ∃ d ds, joinNl ((c :: cs) :: fs) = d :: ds := by
  cases fs with
  | nil => exact ⟨c, cs, rfl⟩
  | cons g gs => exact ⟨c, cs ++ '\n' :: joinNl (g :: gs), rfl⟩

/-- C2 (counterexample): the claim says any emitted `error` event makes
assembly fail with no `CommandResult` returned.  For an `error` record
whose (single, empty) `data:` payload leaves the accumulated error text
empty, the JS truthiness test `if (pendingError)` skips the throw — the
empty string is falsy — and a `CommandResult` with the valid exit code is
returned. -/
theorem assemble_empty_error_event_ok :
    errorPayloads (eventsOf
        ["event: error".toList, "data:".toList, [],
          "event: exit".toList, "data: 0".toList, []]) = [[]] ∧
    assembleLines
        ["event: error".toList, "data:".toList, [],
          "event: exit".toList, "data: 0".toList, []] = .ok ⟨[], [], 0⟩ := by
  exact ⟨by decide, by decide⟩

/-- C2 (amended): whenever the decoded line stream emits at least one
`error` event with a non-empty payload, assembly fails with a
stream-protocol error — no `CommandResult` is returned — even if a valid
`exit` event is also present; the error text is the newline-join of the
error payloads from the first non-empty one on (payloads arriving while the
accumulated error text is still empty replace it rather than join, the
`pendingError ? … : payload` truthiness test). -/
theorem assemble_error_event_fails (lines : List (List Char))
    (h : (errorPayloads (eventsOf lines)).dropWhile (fun e => e.isEmpty) ≠ []) :
    assembleLines lines =
      .error (.streamError
        (joinNl ((errorPayloads (eventsOf lines)).dropWhile (fun e => e.isEmpty)))) := by
  rw [assembleLines_eq_events]
  have hne : errorPayloads (eventsOf lines) ≠ [] := by
    intro h0
    rw [h0] at h
    exact h rfl
  have hp : (foldEvents (eventsOf lines)).pendingError =
      some (joinNl ((errorPayloads (eventsOf lines)).dropWhile (fun e => e.isEmpty))) := by
    show ((eventsOf lines).foldl applyEvent initOutAcc).pendingError = _
    rw [foldl_applyEvent_pendingError (eventsOf lines) initOutAcc]
    exact joinErrOpt_none _ hne
  obtain ⟨f, fs, hdw⟩ :
      ∃ f fs, (errorPayloads (eventsOf lines)).dropWhile (fun e => e.isEmpty) = f :: fs := by
    cases hcase : (errorPayloads (eventsOf lines)).dropWhile (fun e => e.isEmpty) with
    | nil => exact absurd hcase h
    | cons f fs => exact ⟨f, fs, rfl⟩
  obtain ⟨c, cs, rfl⟩ : ∃ c cs, f = c :: cs := by
    have hf : f.isEmpty = false :=
      dropWhile_head_not (fun e => e.isEmpty) (errorPayloads (eventsOf lines)) f fs hdw
    cases f with
    | nil => simp at hf
    | cons c cs => exact ⟨c, cs, rfl⟩
  rw [hdw] at hp ⊢
  obtain ⟨d, ds, hjoin⟩ := joinNl_cons_cons c cs fs
  rw [hjoin] at hp ⊢
  unfold finalizeOut
  rw [hp]

/-- C2 witness: a stream carrying an `error` event with payload `boom` and
a valid `exit 0` event still fails with the accumulated error text. -/
theorem assemble_error_event_fails_witness :
    assembleLines
        ["event: error".toList, "data: boom".toList, [],
          "event: exit".toList, "data: 0".toList, []] =
      .error (.streamError (joinNl ((errorPayloads (eventsOf
        ["event: error".toList, "data: boom".toList, [],
          "event: exit".toList, "data: 0".toList, []])).dropWhile (fun e => e.isEmpty)))) :=
  assemble_error_event_fails
    ["event: error".toList, "data: boom".toList, [],
      "event: exit".toList, "data: 0".toList, []] (by decide)

/-! ## C3 — no error events: exit code decides -/

theorem finalizeOut_pendingError_none (o : OutAcc) (h : o.pendingError = none) :
    finalizeOut o =
      (match o.exitCode with
        | some c => .ok ⟨o.stdout, o.stderr, c⟩
        | none => .error .noExit) := by
  unfold finalizeOut
  rw [h]


/-- C3: for a decoded line stream with no emitted `error` event, assembly
fails with the no-terminal-exit stream-protocol error when no `exit` event
with an integer payload was ever recorded, and otherwise returns the
`CommandResult` made of the concatenated stdout payloads, the concatenated
stderr payloads, and the last recorded exit code (never a fabricated 0). -/
theorem assemble_no_error_spec (lines : List (List Char))
    (h : errorPayloads (eventsOf lines) = []) :
    assembleLines lines =
      (match (validExits (eventsOf lines)).getLast? with
        | none => .error .noExit
        | some c =>
          .ok ⟨(stdoutPayloads (eventsOf lines)).flatten,
            (stderrPayloads (eventsOf lines)).flatten, c⟩) := by
  rw [assembleLines_eq_events]
  have hp : (foldEvents (eventsOf lines)).pendingError = none := by
    show ((eventsOf lines).foldl applyEvent initOutAcc).pendingError = none
    rw [foldl_applyEvent_pendingError (eventsOf lines) initOutAcc, h]
    rfl
  have hx : (foldEvents (eventsOf lines)).exitCode =
      if validExits (eventsOf lines) = [] then none
      else (validExits (eventsOf lines)).getLast? := by
    show ((eventsOf lines).foldl applyEvent initOutAcc).exitCode = _
    rw [foldl_applyEvent_exitCode (eventsOf lines) initOutAcc, foldl_lastWins]
    rfl
  have hso : (foldEvents (eventsOf lines)).stdout =
      (stdoutPayloads (eventsOf lines)).flatten := by
    show ((eventsOf lines).foldl applyEvent initOutAcc).stdout = _
    rw [foldl_applyEvent_stdout (eventsOf lines) initOutAcc]
    rfl
  have hse : (foldEvents (eventsOf lines)).stderr =
      (stderrPayloads (eventsOf lines)).flatten := by
    show ((eventsOf lines).foldl applyEvent initOutAcc).stderr = _
    rw [foldl_applyEvent_stderr (eventsOf lines) initOutAcc]
    rfl
  rw [finalizeOut_pendingError_none _ hp, hx, hso, hse]
  cases hv : validExits (eventsOf lines) with
  | nil => simp
  | cons c cs =>
    simp only [if_neg (by simp : ¬ (c :: cs = []))]
    cases hlast : (c :: cs).getLast? with
    | none => simp at hlast
    | some d => simp

/-- C3 witness: a stream with a single `exit 7` record and no error events
assembles to `exitCode 7`; the hypothesis is discharged by evaluation. -/
theorem assemble_no_error_spec_witness :
    assembleLines ["event: exit".toList, "data: 7".toList, []] =
      (match (validExits (eventsOf ["event: exit".toList, "data: 7".toList, []])).getLast? with
        | none => .error .noExit
        | some c =>
          .ok ⟨(stdoutPayloads (eventsOf ["event: exit".toList, "data: 7".toList, []])).flatten,
            (stderrPayloads (eventsOf ["event: exit".toList, "data: 7".toList, []])).flatten,
            c⟩) :=
  assemble_no_error_spec ["event: exit".toList, "data: 7".toList, []] (by decide)

/-- C6 witness: the amended statement at a concrete failing command. -/
theorem runCheckedCommand_spec_witness :
    runCheckedCommand ⟨"out".toList, " err ".toList, 2⟩ "Step failed".toList = .error
      ("Step failed".toList ++ " (exit ".toList ++ intToChars 2 ++
        (if commandDetail ⟨"out".toList, " err ".toList, 2⟩ = [] then ")".toList
          else "): ".toList ++ truncate (commandDetail ⟨"out".toList, " err ".toList, 2⟩) 220)) ∧
    (truncate (commandDetail ⟨"out".toList, " err ".toList, 2⟩) 220).length ≤ 220 ∧
    (truncate (commandDetail ⟨"out".toList, " err ".toList, 2⟩) 220).take 217 =
      (commandDetail ⟨"out".toList, " err ".toList, 2⟩).take 217 :=
  runCheckedCommand_spec ⟨"out".toList, " err ".toList, 2⟩ "Step failed".toList (by decide)

/-! ## C9 — ranking by composite score -/

/-- The numeric value the comparator effectively compares: the composite
score, 0 when absent. -/
def qscore (r : BenchmarkResult) : ℚ :=
  match scoreOrZero r with
  | .num q => q
  | .nan => 0

/-- The comparator restricted to `NaN`-free scores, phrased over `ℚ`. -/
def cqCompare (a b : BenchmarkResult) : ℚ :=
  if a.skipped ∧ ¬ b.skipped then 1
  else if ¬ a.skipped ∧ b.skipped then -1
  else if a.skipped ∧ b.skipped then 0
  else qscore b - qscore a

theorem JsNum.num_sub (a b : ℚ) : JsNum.num a - JsNum.num b = JsNum.num (a - b) := rfl

theorem compareResults_eq_cq (a b : BenchmarkResult)
    (ha : scoreOrZero a ≠ JsNum.nan) (hb : scoreOrZero b ≠ JsNum.nan) :
    compareResults a b = cqCompare a b := by
  cases hA : scoreOrZero a with
  | nan => exact absurd hA ha
  | num qa =>
    cases hB : scoreOrZero b with
    | nan => exact absurd hB hb
    | num qb =>
      unfold compareResults cqCompare qscore
      rw [hA, hB, JsNum.num_sub]

theorem mem_insertByC {α : Type} (c : α → α → ℚ) (x : α) (l : List α) (y : α) :
    y ∈ insertByC c x l ↔ y = x ∨ y ∈ l := by
  induction l with
  | nil => simp [insertByC]
  | cons z zs ih =>
    simp only [insertByC]
    by_cases hc : c x z < 0 <;> simp [hc, List.mem_cons, ih] <;> tauto

theorem insertByC_congr {α : Type} (cl cr : α → α → ℚ) (x : α) (l : List α)
    (h : ∀ b ∈ l, cl x b = cr x b) :
    insertByC cl x l = insertByC cr x l := by
  induction l with
  | nil => rfl
  | cons y ys ih =>
    simp only [insertByC]
    rw [h y (by simp)]
    by_cases hc : cr x y < 0
    · simp [hc]
    · simp only [hc, if_false]
      rw [ih (fun b hb => h b (by simp [hb]))]

theorem foldl_insertByC_congr {α : Type} (cl cr : α → α → ℚ) (l acc : List α)
    (h : ∀ a b, (a ∈ acc ∨ a ∈ l) → (b ∈ acc ∨ b ∈ l) → cl a b = cr a b) :
    l.foldl (fun acc x => insertByC cl x acc) acc =
      l.foldl (fun acc x => insertByC cr x acc) acc := by
  induction l generalizing acc with
  | nil => rfl
  | cons x xs ih =>
    simp only [List.foldl_cons]
    rw [insertByC_congr cl cr x acc
      (fun b hb => h x b (Or.inr (by simp)) (Or.inl hb))]
    exact ih (insertByC cr x acc) (fun a b hA hB => by
      refine h a b ?_ ?_
      · rcases hA with hA | hA
        · rcases (mem_insertByC cr x acc a).mp hA with rfl | hA'
          · exact Or.inr (by simp)
          · exact Or.inl hA'
        · exact Or.inr (by simp [hA])
      · rcases hB with hB | hB
        · rcases (mem_insertByC cr x acc b).mp hB with rfl | hB'
          · exact Or.inr (by simp)
          · exact Or.inl hB'
        · exact Or.inr (by simp [hB]))

theorem sortByC_congr {α : Type} (cl cr : α → α → ℚ) (l : List α)
    (h : ∀ a ∈ l, ∀ b ∈ l, cl a b = cr a b) :
    sortByC cl l = sortByC cr l :=
  foldl_insertByC_congr cl cr l []
    (fun a b hA hB => h a (hA.resolve_left (by simp)) b (hB.resolve_left (by simp)))

theorem insertByC_pairwise {α : Type} (c : α → α → ℚ)
    (hskew : ∀ a b, c a b = -(c b a))
    (htrans : ∀ a b d, c a b ≤ 0 → c b d ≤ 0 → c a d ≤ 0)
    (x : α) (l : List α) (hl : l.Pairwise (fun a b => c a b ≤ 0)) :
    (insertByC c x l).Pairwise (fun a b => c a b ≤ 0) := by
  induction l with
  | nil => simp [insertByC]
  | cons y ys ih =>
    rcases List.pairwise_cons.mp hl with ⟨hy, hys⟩
    simp only [insertByC]
    by_cases hc : c x y < 0
    · simp only [hc, if_true]
      refine List.pairwise_cons.mpr ⟨?_, hl⟩
      intro z hz
      rcases List.mem_cons.mp hz with rfl | hz'
      · exact le_of_lt hc
      · exact htrans x y z (le_of_lt hc) (hy z hz')
    · simp only [hc, if_false]
      refine List.pairwise_cons.mpr ⟨?_, ih hys⟩
      intro z hz
      rcases (mem_insertByC c x ys z).mp hz with heq | hz'
      · subst heq
        have h0 : 0 ≤ c z y := le_of_not_lt hc
        have hs := hskew z y
        linarith
      · exact hy z hz'

theorem sortByC_pairwise {α : Type} (c : α → α → ℚ)
    (hskew : ∀ a b, c a b = -(c b a))
    (htrans : ∀ a b d, c a b ≤ 0 → c b d ≤ 0 → c a d ≤ 0)
    (l : List α) :
    (sortByC c l).Pairwise (fun a b => c a b ≤ 0) := by
  have key : ∀ (l acc : List α), acc.Pairwise (fun a b => c a b ≤ 0) →
      (l.foldl (fun acc x => insertByC c x acc) acc).Pairwise (fun a b => c a b ≤ 0) := by
    intro l
    induction l with
    | nil => intro acc h; exact h
    | cons x xs ih =>
      intro acc h
      exact ih (insertByC c x acc) (insertByC_pairwise c hskew htrans x acc h)
  exact key l [] (by simp)

theorem cq_skew (a b : BenchmarkResult) : cqCompare a b = -(cqCompare b a) := by
  unfold cqCompare
  by_cases ha : a.skipped = true <;> by_cases hb : b.skipped = true <;>
    simp [ha, hb] <;> ring

theorem cq_trans (a b d : BenchmarkResult)
    (h1 : cqCompare a b ≤ 0) (h2 : cqCompare b d ≤ 0) : cqCompare a d ≤ 0 := by
  unfold cqCompare at h1 h2 ⊢
  by_cases ha : a.skipped = true <;> by_cases hb : b.skipped = true <;>
    by_cases hd : d.skipped = true <;> simp [ha, hb, hd] at h1 h2 ⊢ <;> linarith

theorem insertByC_skipped_append (r : BenchmarkResult) (l : List BenchmarkResult)
    (hr : r.skipped = true) :
    insertByC compareResults r l = l ++ [r] := by
  induction l with
  | nil => rfl
  | cons y ys ih =>
    have hnot : ¬ compareResults r y < 0 := by
      unfold compareResults
      by_cases hy : y.skipped = true <;> simp [hr, hy]
    simp [insertByC, hnot, ih]

theorem filter_insertByC_nonskipped {c : BenchmarkResult → BenchmarkResult → ℚ}
    (r : BenchmarkResult) (l : List BenchmarkResult) (hr : r.skipped = false) :
    (insertByC c r l).filter (fun t => t.skipped) = l.filter (fun t => t.skipped) := by
  induction l with
  | nil => simp [insertByC, hr]
  | cons y ys ih =>
    simp only [insertByC]
    by_cases hc : c r y < 0
    · simp [hc, List.filter_cons, hr]
    · simp [hc, List.filter_cons, ih]

theorem filter_foldl_insert (l acc : List BenchmarkResult) :
    ((l.foldl (fun acc x => insertByC compareResults x acc) acc).filter
        (fun t => t.skipped)) =
      acc.filter (fun t => t.skipped) ++ l.filter (fun t => t.skipped) := by
  induction l generalizing acc with
  | nil => simp
  | cons x xs ih =>
    simp only [List.foldl_cons]
    rw [ih]
    by_cases hx : x.skipped = true
    · rw [insertByC_skipped_append x acc hx]
      simp [List.filter_append, List.filter_cons, hx, List.append_assoc]
    · rw [filter_insertByC_nonskipped x acc (by simpa using hx)]
      simp [List.filter_cons, hx]

def baseSummary : Summary :=
  ⟨⟨0, 0, 0, 0, none, none⟩, none, none⟩

/-- A provider skipped for missing credentials (no composite score). -/
def c9Skipped : BenchmarkResult :=
  ⟨"skipped-provider".toList, [], baseSummary, true, some "Missing".toList, none, none⟩

/-- A non-skipped provider scoring 90. -/
def c9Scorer : BenchmarkResult :=
  ⟨"scoring-provider".toList, [], baseSummary, false, none, some 1, some (JsNum.num 90)⟩

/-- C9: on any result list with `NaN`-free scores, `sortByCompositeScore`
puts every non-skipped result before every skipped one, orders the
non-skipped ones by descending composite score, and keeps the skipped ones
(which all compare as ties) in their original relative order; a one-skipped
one-scoring-90 list sorts the scorer first from either input order. -/
theorem sortByCompositeScore_spec :
    (∀ l : List BenchmarkResult, (∀ r ∈ l, scoreOrZero r ≠ JsNum.nan) →
      (sortByCompositeScore l).Pairwise (fun a b =>
        (a.skipped = true → b.skipped = true) ∧
        (a.skipped = false → b.skipped = false → qscore b ≤ qscore a)) ∧
      (sortByCompositeScore l).filter (fun t => t.skipped) =
        l.filter (fun t => t.skipped)) ∧
    sortByCompositeScore [c9Skipped, c9Scorer] = [c9Scorer, c9Skipped] ∧
    sortByCompositeScore [c9Scorer, c9Skipped] = [c9Scorer, c9Skipped] := by
  refine ⟨?_, by decide, by decide⟩
  intro l hl
  constructor
  · have hcong : sortByCompositeScore l = sortByC cqCompare l :=
      sortByC_congr compareResults cqCompare l
        (fun a ha b hb => compareResults_eq_cq a b (hl a ha) (hl b hb))
    rw [hcong]
    refine (sortByC_pairwise cqCompare cq_skew cq_trans l).imp ?_
    intro a b hab
    constructor
    · intro hask
      by_contra hbsk
      unfold cqCompare at hab
      simp [hask, hbsk] at hab
      linarith
    · intro haf hbf
      unfold cqCompare at hab
      simp [haf, hbf] at hab
      linarith
  · exact filter_foldl_insert l []

/-- C9 witness: the general statement applied to the concrete two-provider
list (its no-`NaN` hypothesis discharged by evaluation). -/
theorem sortByCompositeScore_spec_witness :
    (sortByCompositeScore [c9Skipped, c9Scorer]).Pairwise (fun a b =>
      (a.skipped = true → b.skipped = true) ∧
      (a.skipped = false → b.skipped = false → qscore b ≤ qscore a)) ∧
    (sortByCompositeScore [c9Skipped, c9Scorer]).filter (fun t => t.skipped) =
      [c9Skipped, c9Scorer].filter (fun t => t.skipped) :=
  sortByCompositeScore_spec.1 [c9Skipped, c9Scorer] (by decide)

/-! ## C7 — guaranteed, bounded, swallowed teardown -/

/-- C7: whenever sandbox creation succeeded, `runIteration` invokes destroy
exactly once, as a race against the fixed 15-second teardown timer, on the
success path and on every failure path alike; and however the destroy
settles (success, rejection, or hang/timeout) the iteration's primary
outcome is unchanged — teardown never throws out of the orchestrator. -/
theorem runIteration_teardown (env : IterEnv) (timeout : Nat)
    (workload : Option WorkloadConfig) (h : env.createRes = .ok ()) :
    (runIteration env timeout workload).destroyCalls = 1 ∧
    (runIteration env timeout workload).teardown =
      some (withTimeout destroyTimeoutMs env.destroyRes "Destroy timeout".toList) ∧
    ∀ d : OpRes Unit,
      (runIteration { env with destroyRes := d } timeout workload).primary =
        (runIteration env timeout workload).primary := by
  refine ⟨?_, ?_, ?_⟩
  · simp [runIteration, withTimeout, h]
  · simp [runIteration, withTimeout, h]
  · intro d
    obtain ⟨cr, sm, se, wl, dr, t1, t2, t3⟩ := env
    simp only [IterEnv.createRes] at h
    subst h
    rfl

/-- C7 witness: a concrete iteration whose destroy rejects still reports
the same primary outcome, with exactly one destroy call. -/
theorem runIteration_teardown_witness :
    (runIteration
        ⟨.ok (), .ok ⟨"benchmark".toList, [], 0⟩, .ok ⟨[], [], 0⟩, .ok ⟨[], [], 0⟩,
          .fail "boom".toList, 410, 0, 0⟩ 120000 none).destroyCalls = 1 ∧
    (runIteration
        ⟨.ok (), .ok ⟨"benchmark".toList, [], 0⟩, .ok ⟨[], [], 0⟩, .ok ⟨[], [], 0⟩,
          .fail "boom".toList, 410, 0, 0⟩ 120000 none).teardown =
      some (withTimeout destroyTimeoutMs (.fail "boom".toList) "Destroy timeout".toList) ∧
    (runIteration
        ⟨.ok (), .ok ⟨"benchmark".toList, [], 0⟩, .ok ⟨[], [], 0⟩, .ok ⟨[], [], 0⟩,
          .hung, 410, 0, 0⟩ 120000 none).primary =
      (runIteration
        ⟨.ok (), .ok ⟨"benchmark".toList, [], 0⟩, .ok ⟨[], [], 0⟩, .ok ⟨[], [], 0⟩,
          .fail "boom".toList, 410, 0, 0⟩ 120000 none).primary :=
  ⟨(runIteration_teardown
      ⟨.ok (), .ok ⟨"benchmark".toList, [], 0⟩, .ok ⟨[], [], 0⟩, .ok ⟨[], [], 0⟩,
        .fail "boom".toList, 410, 0, 0⟩ 120000 none rfl).1,
    (runIteration_teardown
      ⟨.ok (), .ok ⟨"benchmark".toList, [], 0⟩, .ok ⟨[], [], 0⟩, .ok ⟨[], [], 0⟩,
        .fail "boom".toList, 410, 0, 0⟩ 120000 none rfl).2.1,
    (runIteration_teardown
      ⟨.ok (), .ok ⟨"benchmark".toList, [], 0⟩, .ok ⟨[], [], 0⟩, .ok ⟨[], [], 0⟩,
        .fail "boom".toList, 410, 0, 0⟩ 120000 none rfl).2.2 .hung⟩

/-! ## C10 — a setup-only workload still gets workloadMs/totalMs -/

/-- C10: with a workload configuration that has a `setupCommand` but no
workload `command`, a fully successful iteration returns a sample with
`workloadMs` and `totalMs` present (they time the setup phase alone);
conversely a successful sample with `workloadMs` absent can only come from
a configuration with neither `setupCommand` nor `command`. -/
theorem runIteration_setup_only :
    (∀ (env : IterEnv) (timeout : Nat) (wc : WorkloadConfig) (sc : List Char),
      env.createRes = .ok () →
      checkedOp env.smokeRes "First command execution failed".toList = .ok () →
      wc.setupCommand = some sc → wc.command = none →
      checkedOp env.setupRes "Workload setup failed".toList = .ok () →
      (runIteration env timeout (some wc)).primary =
        .ok ⟨env.ttiClock, some env.workloadClock, some env.totalClock, none⟩) ∧
    (∀ (env : IterEnv) (timeout : Nat) (w : Option WorkloadConfig) (s : TimingResult),
      (runIteration env timeout w).primary = .ok s → s.workloadMs = none →
      w.bind (·.setupCommand) = none ∧ w.bind (·.command) = none) := by
  constructor
  · intro env timeout wc sc hc hsm hset hcmd hsetup
    have hbody : (runIteration env timeout (some wc)).primary = iterationBody env (some wc) := by
      unfold runIteration
      rw [hc]
      rfl
    have hcond : ¬(((some wc).bind (·.setupCommand)) = none ∧
        ((some wc).bind (·.command)) = none) := by
      simp [hset]
    have hsetupStep : setupStep env (some wc) = .ok () := by
      unfold setupStep
      rw [show ((some wc).bind (·.setupCommand)) = some sc by simp [hset], hsetup]
      rfl
    have hcmdStep : commandStep env (some wc) = .ok () := by
      unfold commandStep
      rw [show ((some wc).bind (·.command)) = none by simp [hcmd]]
    rw [hbody]
    unfold iterationBody
    rw [hsm, if_neg hcond, hsetupStep, hcmdStep]
    rfl
  · intro env timeout w s hp hw
    unfold runIteration at hp
    cases hcr : env.createRes with
    | fail m => rw [hcr] at hp; simp [withTimeout] at hp
    | hung => rw [hcr] at hp; simp [withTimeout] at hp
    | ok u =>
      cases u
      rw [hcr] at hp
      have hp' : iterationBody env w = .ok s := hp
      clear hp
      unfold iterationBody at hp'
      cases hsm : withTimeout 30000
          (checkedOp env.smokeRes "First command execution failed".toList)
          "First command execution timed out".toList with
      | error e => rw [hsm] at hp'; simp at hp'
      | ok u2 =>
        cases u2
        rw [hsm] at hp'
        by_cases hnone : ((w.bind (·.setupCommand)) = none ∧ (w.bind (·.command)) = none)
        · exact hnone
        · exfalso
          rw [if_neg hnone] at hp'
          cases hst : setupStep env w with
          | error e => rw [hst] at hp'; simp at hp'
          | ok u3 =>
            cases u3
            rw [hst] at hp'
            cases hcs : commandStep env w with
            | error e => rw [hcs] at hp'; simp at hp'
            | ok u4 =>
              cases u4
              rw [hcs] at hp'
              obtain ⟨stti, swl, stot, serr⟩ := s
              simp at hw
              simp [hw] at hp'

/-- C10 witness: a concrete setup-only workload run where every step
succeeds yields a sample with `workloadMs` and `totalMs` set. -/
theorem runIteration_setup_only_witness :
    (runIteration
        ⟨.ok (), .ok ⟨"benchmark".toList, [], 0⟩, .ok ⟨[], [], 0⟩, .ok ⟨[], [], 0⟩,
          .ok (), 410, 2000, 2410⟩ 120000
        (some ⟨some "npm install".toList, none, none⟩)).primary =
      .ok ⟨410, some 2000, some 2410, none⟩ :=
  runIteration_setup_only.1
    ⟨.ok (), .ok ⟨"benchmark".toList, [], 0⟩, .ok ⟨[], [], 0⟩, .ok ⟨[], [], 0⟩,
      .ok (), 410, 2000, 2410⟩ 120000
    ⟨some "npm install".toList, none, none⟩ "npm install".toList
    rfl (by decide) rfl rfl (by decide)

end Benchmarks
